import Mathlib

/-!
Verification of the streaming protocol decoder and payload decoder of the
TCP video-frame demo (image_receiver.py / image_server.py).

The byte-stream frame decoder (the inner loop of `start_receiver`) is
embedded as a fuel-indexed step function `processF` over an explicit
decoder state; `process` runs it with enough fuel, `feed` models one
`recv` + processing pass, `feedAll` models a whole sequence of chunks.
The payload decoder `decode_frame` is embedded as a pure function,
parametric in the external JPEG and LZ4 collaborators (cv2.imdecode and
lz4.frame.decompress), which are modelled as `Option`-valued oracles.
Bytes are natural numbers; u16/u32 little-endian readings are explicit
arithmetic.
-/

/-- A decoded image: rows of (B, G, R) pixels, as produced by the receiver
(after `cv2.cvtColor(..., COLOR_RGB2BGR)`). -/
abbrev Image := List (List (Nat × Nat × Nat))

/-- A parsed frame: `(frame_type, payload_bytes)`. -/
abbrev Frame := Nat × List Nat

/-- Little-endian reading of (up to) the first four bytes of a list,
as `int.from_bytes(buffer[0:4], 'little')` does. -/
def le32 (b : List Nat) : Nat :=
  b.getD 0 0 + 256 * (b.getD 1 0 + 256 * (b.getD 2 0 + 256 * b.getD 3 0))

/-- The wire sync word constant `0xAEBC1402`. -/
def syncWord : Nat := 0xAEBC1402

/-- The little-endian byte pattern of the sync word,
`bytes([0x02, 0x14, 0xBC, 0xAE])`. -/
def syncBytes : List Nat := [0x02, 0x14, 0xBC, 0xAE]

/-- Little-endian 4-byte encoding of a length field. -/
def encodeLen (n : Nat) : List Nat :=
  [n % 256, n / 256 % 256, n / 2 ^ 16 % 256, n / 2 ^ 24 % 256]

/-- `bytes.find` for a pattern: index of the first occurrence of `pat`
as a contiguous sublist of `hay`, or `none`. -/
def findPat (hay pat : List Nat) : Option Nat :=
  match hay with
  | [] => if pat = [] then some 0 else none
  | _ :: t =>
    if hay.take pat.length = pat then some 0
    else (findPat t pat).map (· + 1)

/-- State of the receiver's framing loop: the accumulation buffer, the
`waiting_for_header` flag, and the cached `data_type` /
`expected_data_length` fields. -/
structure DecState where
  buffer : List Nat
  waiting : Bool
  dataType : Nat
  expectedLen : Nat
  deriving Repr, DecidableEq

/-- Termination measure for the inner processing loop. -/
def stMeasure (s : DecState) : Nat :=
  2 * s.buffer.length + (if s.waiting then 1 else 2)

/-- Fuel-indexed embedding of the inner `while True:` processing loop of
`start_receiver`: repeatedly parse headers (with resync on a bad sync
word) and extract payloads while the buffer allows, returning the final
state and the frames completed, in order.  With fuel at least
`stMeasure s` the fuel never runs out. -/
def processF : Nat → DecState → DecState × List Frame
  | 0, s => (s, [])
  | fuel + 1, s =>
    if s.waiting then
      if s.buffer.length < 9 then (s, [])
      else if le32 (s.buffer.take 4) ≠ syncWord then
        match findPat (s.buffer.drop 1) syncBytes with
        | some j => processF fuel { s with buffer := s.buffer.drop (j + 1) }
        | none => ({ s with buffer := s.buffer.drop 1 }, [])
      else
        processF fuel
          ⟨s.buffer.drop 9, false, s.buffer.getD 4 0,
            le32 ((s.buffer.drop 5).take 4)⟩
    else
      if s.buffer.length < s.expectedLen then (s, [])
      else
        let r := processF fuel
          ⟨s.buffer.drop s.expectedLen, true, s.dataType, s.expectedLen⟩
        (r.1, (s.dataType, s.buffer.take s.expectedLen) :: r.2)

/-- Run the processing loop to quiescence. -/
def process (s : DecState) : DecState × List Frame :=
  processF (2 * s.buffer.length + 1 + 1) s

/-- One `recv` iteration: append the chunk to the buffer, then process. -/
def feed (s : DecState) (chunk : List Nat) : DecState × List Frame :=
  process { s with buffer := s.buffer ++ chunk }

/-- Feed a sequence of chunks, concatenating the decoded frames. -/
def feedAll : DecState → List (List Nat) → DecState × List Frame
  | s, [] => (s, [])
  | s, c :: cs =>
    let pr := feed s c
    let rest := feedAll pr.1 cs
    (rest.1, pr.2 ++ rest.2)

/-- The decoder state at connection start. -/
def initState : DecState := ⟨[], true, 0, 0⟩

/-- The 9-byte wire encoding of a frame, as parsed by the receiver:
sync word, type byte, little-endian payload length, payload. -/
def encodeFrame (f : Frame) : List Nat :=
  syncBytes ++ f.1 :: encodeLen f.2.length ++ f.2

/-- Wire encoding of a sequence of frames. -/
def encodeFrames (F : List Frame) : List Nat :=
  (F.map encodeFrame).flatten

/-- The sender's 13-byte header layout (`struct.pack('<IBHHI', ...)` in
`send_video_to_esp32`) followed by the payload. -/
def encodeFrame13 (t w h : Nat) (p : List Nat) : List Nat :=
  syncBytes ++ t :: ([w % 256, w / 256] ++ [h % 256, h / 256] ++
    encodeLen p.length ++ p)

/-- A frame whose type and payload fit the wire format: a type byte and a
payload of bytes whose length fits the u32 length field. -/
def ValidFrame (f : Frame) : Prop :=
  f.1 < 256 ∧ f.2.length < 2 ^ 32 ∧ ∀ b ∈ f.2, b < 256

/-- All frames of a stream are valid. -/
def ValidFrames (F : List Frame) : Prop := ∀ f ∈ F, ValidFrame f

instance : DecidablePred ValidFrame := fun f => by
  unfold ValidFrame; infer_instance

instance : DecidablePred ValidFrames := fun F => by
  unfold ValidFrames; infer_instance

/-- RGB565 to RGB888 per-pixel conversion of `decode_frame`:
`r = ((v >> 11) & 0x1F) << 3`, `g = ((v >> 5) & 0x3F) << 2`,
`b = (v & 0x1F) << 3`. -/
def pix565toRGB (v : Nat) : Nat × Nat × Nat :=
  (v / 2048 % 32 * 8, v / 32 % 64 * 4, v % 32 * 8)

/-- Channel swap performed by `cv2.cvtColor(rgb_image, COLOR_RGB2BGR)`. -/
def rgbToBgr (c : Nat × Nat × Nat) : Nat × Nat × Nat :=
  (c.2.2, c.2.1, c.1)

/-- `np.frombuffer(data, dtype=np.uint16)` on a little-endian host:
consecutive byte pairs as u16 values. -/
def toU16 : List Nat → List Nat
  | a :: b :: t => (a + 256 * b) :: toU16 t
  | _ => []

/-- The RGB565-to-image part shared by the LZ4 and raw branches of
`decode_frame`: compute `actual_height = (len(data) // 2) // width`,
reshape (failing, hence `none`, when the byte count is odd or not a
multiple of the row size, or when the width is zero), convert each pixel
to RGB888, zero-pad to the declared height when under-filled, and swap
to BGR channel order. -/
def rgb565ToImage (data : List Nat) (w h : Nat) : Option Image :=
  if w = 0 then none
  else if data.length % 2 ≠ 0 then none
  else
    let pixelCount := data.length / 2
    let actualHeight := pixelCount / w
    if actualHeight * w ≠ pixelCount then none
    else
      let pixels := toU16 data
      let rgbRows := (List.range actualHeight).map
        (fun i => ((pixels.drop (i * w)).take w).map pix565toRGB)
      let allRows :=
        if actualHeight < h then
          rgbRows ++ List.replicate (h - actualHeight)
            (List.replicate w (0, 0, 0))
        else rgbRows
      some (allRows.map (fun row => row.map rgbToBgr))

/-- The payload decoder `decode_frame(data_type, frame_data, frame_width,
frame_height)`, parametric in the external JPEG decoder and LZ4
decompressor; every caught exception is a `none` result. -/
def decode_frame (jpegDecode : List Nat → Option Image)
    (lz4Decompress : List Nat → Option (List Nat))
    (data_type : Nat) (frame_data : List Nat)
    (frame_width frame_height : Nat) : Option Image :=
  if data_type = 0x01 then jpegDecode frame_data
  else if data_type = 0x02 then
    match lz4Decompress frame_data with
    | none => none
    | some dec => rgb565ToImage dec frame_width frame_height
  else if data_type = 0x03 then
    rgb565ToImage frame_data frame_width frame_height
  else none

/-- A JPEG oracle that always fails (cv2.imdecode on undecodable data). -/
def noJpeg : List Nat → Option Image := fun _ => none

/-- An LZ4 oracle that always fails (lz4.frame.decompress raising). -/
def noLz4 : List Nat → Option (List Nat) := fun _ => none

/-- The sender's RGB565 packing in `encode_frame` (`'raw'` and `'lz4'`
branches): a BGR pixel packed as `r5 << 11 | g6 << 5 | b5`. -/
def rgb565pack (bgr : Nat × Nat × Nat) : Nat :=
  bgr.2.2 / 8 % 32 * 2048 + bgr.2.1 / 4 % 64 * 32 + bgr.1 / 8 % 32

/-- The sender's `rgb565.byteswap()`: swap the two bytes of a u16. -/
def swap16 (v : Nat) : Nat := v % 256 * 256 + v / 256

/-- The sender's `'raw'` branch of `encode_frame` on a BGR image: pack
each pixel to RGB565, byteswap each u16 (to match the LVGL firmware),
and serialize row-major with native little-endian `tobytes()`. -/
def encode_frame_raw (img : Image) : List Nat :=
  ((img.map (fun row => row.map (fun p => swap16 (rgb565pack p)))).flatten).flatMap
    (fun v => [v % 256, v / 256])

/-- Invariant of a quiescent decoder state: the buffer holds a strict
prefix of the remaining stream (frames `F`, with suffix `r` of the wire
bytes still to arrive), either awaiting a header or awaiting the payload
of the first frame of `F`. -/
def StuckInv (s : DecState) (F : List Frame) (r : List Nat) : Prop :=
  (s.waiting = true ∧ s.buffer.length < 9 ∧ s.buffer ++ r = encodeFrames F) ∨
  (∃ t p F', F = (t, p) :: F' ∧ s.waiting = false ∧ s.dataType = t ∧
    s.expectedLen = p.length ∧ s.buffer.length < p.length ∧
    s.buffer ++ r = p ++ encodeFrames F')

/-- Statement: processing from an awaiting-header state whose buffer is a
prefix of the encoding of `F` emits an initial segment of `F` and leaves
a quiescent state satisfying the invariant. -/
def RunHeader (F : List Frame) : Prop :=
  ∀ b r t0 l0, ValidFrames F → b ++ r = encodeFrames F →
    ∃ F₁ F₂ s', F = F₁ ++ F₂ ∧
      process ⟨b, true, t0, l0⟩ = (s', F₁) ∧ StuckInv s' F₂ r

/-- Statement: same, from an awaiting-payload state in the middle of a
frame `(t, p)` followed by the frames `F`. -/
def RunPayload (F : List Frame) : Prop :=
  ∀ t p b r, p.length < 2 ^ 32 → ValidFrames F →
    b ++ r = p ++ encodeFrames F →
    ∃ F₁ F₂ s', (t, p) :: F = F₁ ++ F₂ ∧
      process ⟨b, false, t, p.length⟩ = (s', F₁) ∧ StuckInv s' F₂ r

/-- The BGR row a decoder produces for row `i` of an RGB565 byte buffer. -/
def decodedRow (d : List Nat) (w i : Nat) : List (Nat × Nat × Nat) :=
  (((toU16 d).drop (i * w)).take w).map (fun v => rgbToBgr (pix565toRGB v))

def c1F : List Frame := [(1, [7, 8])]

def c1Chunks : List (List Nat) := [[2, 20, 188], [174, 1, 2, 0, 0], [0, 7, 8]]

def c4buf : List Nat := [0, 0, 2, 20, 188, 174, 1, 2, 3, 4, 5]

def c5stream : List Nat := encodeFrame13 1 240 200 (List.replicate 10 171)

def c2data : List Nat := [0, 0, 255, 255, 0, 0, 255, 255]

def c6img : Image := [[(10, 20, 30), (0, 0, 255)]]

/-! ## Basic lemmas about the framing loop -/

theorem stMeasure_pos (s : DecState) : 1 ≤ stMeasure s := by
  unfold stMeasure; cases s.waiting <;> simp

theorem processF_fuel_irrel : ∀ f g s, stMeasure s ≤ f → stMeasure s ≤ g →
    processF f s = processF g s := by
  intro f
  induction f using Nat.strong_induction_on with
  | _ f ih =>
  intro g s hf hg
  have hm : 1 ≤ stMeasure s := stMeasure_pos s
  obtain ⟨f', rfl⟩ : ∃ k, f = k + 1 := ⟨f - 1, by omega⟩
  obtain ⟨g', rfl⟩ : ∃ k, g = k + 1 := ⟨g - 1, by omega⟩
  unfold stMeasure at hf hg
  by_cases hw : s.waiting = true
  · simp only [hw, if_true] at hf hg
    by_cases hlen : s.buffer.length < 9
    · simp [processF, hw, hlen]
    · by_cases hsync : le32 (s.buffer.take 4) = syncWord
      · simp [processF, hw, hlen, hsync]
        refine ih f' (by omega) g' _ ?_ ?_ <;>
          · unfold stMeasure
            simp only [List.length_drop]
            simp
            omega
      · cases hfind : findPat (s.buffer.drop 1) syncBytes with
        | none =>
          rw [List.drop_one] at hfind
          simp [processF, hw, hlen, hsync, hfind]
        | some j =>
          rw [List.drop_one] at hfind
          simp [processF, hw, hlen, hsync, hfind]
          refine ih f' (by omega) g' _ ?_ ?_ <;>
            · unfold stMeasure
              simp only [List.length_drop, hw]
              simp
              omega
  · have hw' : s.waiting = false := by simpa using hw
    simp only [hw', if_false, Bool.false_eq_true] at hf hg
    by_cases hlen : s.buffer.length < s.expectedLen
    · simp [processF, hw', hlen]
    · simp [processF, hw', hlen]
      constructor
      · refine congrArg Prod.fst (ih f' (by omega) g' _ ?_ ?_) <;>
          · unfold stMeasure
            simp only [List.length_drop]
            simp
            omega
      · refine congrArg Prod.snd (ih f' (by omega) g' _ ?_ ?_) <;>
          · unfold stMeasure
            simp only [List.length_drop]
            simp
            omega

/-- One-step unfolding of `processF` at positive fuel. -/
theorem processF_succ (fuel : Nat) (s : DecState) :
    processF (fuel + 1) s =
      if s.waiting then
        if s.buffer.length < 9 then (s, [])
        else if le32 (s.buffer.take 4) ≠ syncWord then
          match findPat (s.buffer.drop 1) syncBytes with
          | some j => processF fuel { s with buffer := s.buffer.drop (j + 1) }
          | none => ({ s with buffer := s.buffer.drop 1 }, [])
        else
          processF fuel
            ⟨s.buffer.drop 9, false, s.buffer.getD 4 0,
              le32 ((s.buffer.drop 5).take 4)⟩
      else
        if s.buffer.length < s.expectedLen then (s, [])
        else
          ((processF fuel
              ⟨s.buffer.drop s.expectedLen, true, s.dataType,
                s.expectedLen⟩).1,
            (s.dataType, s.buffer.take s.expectedLen) ::
              (processF fuel
                ⟨s.buffer.drop s.expectedLen, true, s.dataType,
                  s.expectedLen⟩).2) := rfl

theorem process_stuck_header (s : DecState) (hw : s.waiting = true)
    (h : s.buffer.length < 9) : process s = (s, []) := by
  unfold process
  rw [processF_succ]
  simp [hw, h]

theorem process_stuck_payload (s : DecState) (hw : s.waiting = false)
    (h : s.buffer.length < s.expectedLen) : process s = (s, []) := by
  unfold process
  rw [processF_succ]
  simp [hw, h]

theorem process_resync_found (s : DecState) (j : Nat) (hw : s.waiting = true)
    (h9 : 9 ≤ s.buffer.length) (hs : le32 (s.buffer.take 4) ≠ syncWord)
    (hf : findPat (s.buffer.drop 1) syncBytes = some j) :
    process s = process { s with buffer := s.buffer.drop (j + 1) } := by
  have h9' : ¬ s.buffer.length < 9 := by omega
  unfold process
  rw [processF_succ]
  rw [List.drop_one] at hf
  simp [hw, h9', hs, hf]
  refine processF_fuel_irrel _ _ _ ?_ ?_ <;>
    · unfold stMeasure
      simp only [List.length_drop]
      try simp
      try omega

theorem process_resync_none (s : DecState) (hw : s.waiting = true)
    (h9 : 9 ≤ s.buffer.length) (hs : le32 (s.buffer.take 4) ≠ syncWord)
    (hf : findPat (s.buffer.drop 1) syncBytes = none) :
    process s = ({ s with buffer := s.buffer.drop 1 }, []) := by
  have h9' : ¬ s.buffer.length < 9 := by omega
  unfold process
  rw [processF_succ]
  rw [List.drop_one] at hf
  simp [hw, h9', hs, hf]

theorem process_header_parse (s : DecState) (hw : s.waiting = true)
    (h9 : 9 ≤ s.buffer.length) (hs : le32 (s.buffer.take 4) = syncWord) :
    process s = process
      ⟨s.buffer.drop 9, false, s.buffer.getD 4 0,
        le32 ((s.buffer.drop 5).take 4)⟩ := by
  have h9' : ¬ s.buffer.length < 9 := by omega
  unfold process
  rw [processF_succ]
  simp [hw, h9', hs]
  refine processF_fuel_irrel _ _ _ ?_ ?_ <;>
    · unfold stMeasure
      simp only [List.length_drop]
      try simp
      try omega

theorem process_payload_extract (s : DecState) (hw : s.waiting = false)
    (h : s.expectedLen ≤ s.buffer.length) :
    process s =
      ((process ⟨s.buffer.drop s.expectedLen, true, s.dataType,
          s.expectedLen⟩).1,
        (s.dataType, s.buffer.take s.expectedLen) ::
          (process ⟨s.buffer.drop s.expectedLen, true, s.dataType,
            s.expectedLen⟩).2) := by
  have h' : ¬ s.buffer.length < s.expectedLen := by omega
  unfold process
  rw [processF_succ]
  simp [hw, h']
  constructor
  · refine congrArg Prod.fst (processF_fuel_irrel _ _ _ ?_ ?_) <;>
      · unfold stMeasure
        simp only [List.length_drop]
        try simp
        try omega
  · refine congrArg Prod.snd (processF_fuel_irrel _ _ _ ?_ ?_) <;>
      · unfold stMeasure
        simp only [List.length_drop]
        try simp
        try omega

/-! ## findPat, le32 and list splitting lemmas -/

theorem findPat_some_spec : ∀ (hay pat : List Nat) (j : Nat),
    findPat hay pat = some j →
    (hay.drop j).take pat.length = pat ∧
      ∀ i < j, ¬ (hay.drop i).take pat.length = pat := by
  intro hay
  induction hay with
  | nil =>
    intro pat j h
    unfold findPat at h
    split at h
    · rename_i hp
      cases h
      refine ⟨by simp [hp], ?_⟩
      intro i hi
      omega
    · cases h
  | cons a tl ih =>
    intro pat j h
    unfold findPat at h
    split at h
    · rename_i htake
      cases h
      exact ⟨by simpa using htake, by intro i hi; omega⟩
    · rename_i htake
      cases hf : findPat tl pat with
      | none => rw [hf] at h; simp at h
      | some j' =>
        rw [hf] at h
        simp at h
        subst h
        obtain ⟨h1, h2⟩ := ih pat j' hf
        refine ⟨by simpa using h1, ?_⟩
        intro i hi
        cases i with
        | zero => simpa using htake
        | succ i' => simpa using h2 i' (by omega)

theorem findPat_none_spec : ∀ (hay pat : List Nat), pat ≠ [] →
    findPat hay pat = none →
    ∀ i, ¬ (hay.drop i).take pat.length = pat := by
  intro hay
  induction hay with
  | nil =>
    intro pat hp _ i
    intro hcontra
    simp at hcontra
    exact hp hcontra
  | cons a tl ih =>
    intro pat hp h i
    unfold findPat at h
    split at h
    · cases h
    · rename_i htake
      have hf : findPat tl pat = none := by
        cases hfp : findPat tl pat with
        | none => rfl
        | some j => rw [hfp] at h; simp at h
      cases i with
      | zero => simpa using htake
      | succ i' => simpa using ih pat hp hf i'

theorem le32_encodeLen (n : Nat) (h : n < 2 ^ 32) : le32 (encodeLen n) = n := by
  simp [le32, encodeLen, List.getD]
  omega

theorem le32_syncBytes : le32 syncBytes = syncWord := by decide

theorem append_eq_split : ∀ (p b r x : List Nat), b ++ r = p ++ x →
    p.length ≤ b.length →
    b.take p.length = p ∧ b.drop p.length ++ r = x := by
  intro p
  induction p with
  | nil =>
    intro b r x h _
    simpa using h
  | cons q p' ih =>
    intro b r x h hlen
    cases b with
    | nil => simp at hlen
    | cons a b' =>
      simp only [List.cons_append, List.cons.injEq] at h
      obtain ⟨rfl, h2⟩ := h
      obtain ⟨ht, hd⟩ := ih b' r x h2 (by simp at hlen ⊢; omega)
      constructor
      · simp [List.take_succ_cons, ht]
      · simpa [List.drop_succ_cons] using hd

theorem encodeFrames_nil : encodeFrames [] = [] := rfl

theorem encodeFrames_cons (f : Frame) (F : List Frame) :
    encodeFrames (f :: F) = encodeFrame f ++ encodeFrames F := by
  simp [encodeFrames]

theorem encodeFrame_length (f : Frame) :
    (encodeFrame f).length = 9 + f.2.length := by
  simp [encodeFrame, syncBytes, encodeLen]
  omega

/-! ## Completeness of the framing loop on valid streams -/

theorem payload_from_header (F : List Frame) (hH : RunHeader F) :
    RunPayload F := by
  intro t p b r hp hV h
  by_cases hlen : b.length < p.length
  · refine ⟨[], (t, p) :: F, ⟨b, false, t, p.length⟩, by simp,
      process_stuck_payload _ rfl hlen, ?_⟩
    right
    exact ⟨t, p, F, rfl, rfl, rfl, rfl, hlen, h⟩
  · push_neg at hlen
    obtain ⟨htake, hdrop⟩ := append_eq_split p b r (encodeFrames F) h hlen
    obtain ⟨F₁, F₂, s', hsplit, hproc, hstuck⟩ :=
      hH (b.drop p.length) r t p.length hV hdrop
    refine ⟨(t, p) :: F₁, F₂, s', by rw [List.cons_append, ← hsplit], ?_, hstuck⟩
    have hext := process_payload_extract ⟨b, false, t, p.length⟩ rfl
      (by simpa using hlen)
    dsimp only at hext
    rw [hext, hproc, htake]

theorem run_both : ∀ F, RunHeader F ∧ RunPayload F := by
  intro F
  induction F with
  | nil =>
    have hH : RunHeader [] := by
      intro b r t0 l0 _ h
      rw [encodeFrames_nil] at h
      obtain ⟨rfl, rfl⟩ : b = [] ∧ r = [] := by
        constructor <;> (cases hx : b ++ r <;> simp_all)
      refine ⟨[], [], ⟨[], true, t0, l0⟩, rfl,
        process_stuck_header _ rfl (by simp), ?_⟩
      left
      exact ⟨rfl, by simp, by simp [encodeFrames_nil]⟩
    exact ⟨hH, payload_from_header [] hH⟩
  | cons f F' ih =>
    have hH : RunHeader (f :: F') := by
      obtain ⟨t', p'⟩ := f
      intro b r t0 l0 hV h
      have hp'lt : p'.length < 2 ^ 32 := (hV (t', p') (by simp)).2.1
      have hV' : ValidFrames F' := fun g hg => hV g (by simp [hg])
      rw [encodeFrames_cons] at h
      by_cases hlen : b.length < 9
      · refine ⟨[], (t', p') :: F', ⟨b, true, t0, l0⟩, by simp,
          process_stuck_header _ rfl hlen, ?_⟩
        left
        exact ⟨rfl, hlen, by rw [encodeFrames_cons]; exact h⟩
      · push_neg at hlen
        have h' : b ++ r =
            (syncBytes ++ t' :: encodeLen p'.length) ++
              (p' ++ encodeFrames F') := by
          rw [h]
          simp [encodeFrame]
        have hdrlen : (syncBytes ++ t' :: encodeLen p'.length).length = 9 := by
          simp [syncBytes, encodeLen]
        obtain ⟨htake9, hdrop9⟩ :=
          append_eq_split _ b r _ h' (by rw [hdrlen]; omega)
        rw [hdrlen] at htake9 hdrop9
        have hbeq : b = (syncBytes ++ t' :: encodeLen p'.length) ++ b.drop 9 := by
          conv_lhs => rw [← List.take_append_drop 9 b]
          rw [htake9]
        have htake4 : b.take 4 = syncBytes := by
          rw [hbeq]
          simp [syncBytes, encodeLen]
        have hget4 : b.getD 4 0 = t' := by
          rw [hbeq]
          simp [syncBytes, encodeLen]
        have hlen4 : (b.drop 5).take 4 = encodeLen p'.length := by
          rw [hbeq]
          simp [syncBytes, encodeLen]
        have hparse := process_header_parse ⟨b, true, t0, l0⟩ rfl
          (by simpa using hlen) (by dsimp only; rw [htake4]; exact le32_syncBytes)
        dsimp only at hparse
        rw [hget4, hlen4, le32_encodeLen _ hp'lt] at hparse
        obtain ⟨F₁, F₂, s', hsplit, hproc, hstuck⟩ :=
          ih.2 t' p' (b.drop 9) r hp'lt hV' hdrop9
        exact ⟨F₁, F₂, s', hsplit, by rw [hparse]; exact hproc, hstuck⟩
    exact ⟨hH, payload_from_header _ hH⟩

theorem feed_run : ∀ (chunks : List (List Nat)) (s : DecState)
    (F : List Frame), ValidFrames F → StuckInv s F chunks.flatten →
    (feedAll s chunks).2 = F := by
  intro chunks
  induction chunks with
  | nil =>
    intro s F hV hstuck
    rcases hstuck with ⟨hw, hlen, hbuf⟩ | ⟨t, p, F', hF, hw, hdt, hel, hlen, hbuf⟩
    · simp only [List.flatten_nil, List.append_nil] at hbuf
      cases F with
      | nil => simp [feedAll]
      | cons f F'' =>
        exfalso
        have hlf : (encodeFrames (f :: F'')).length =
            9 + f.2.length + (encodeFrames F'').length := by
          rw [encodeFrames_cons, List.length_append, encodeFrame_length]
        rw [← hbuf] at hlf
        omega
    · exfalso
      simp only [List.flatten_nil, List.append_nil] at hbuf
      have hl := congrArg List.length hbuf
      rw [List.length_append] at hl
      omega
  | cons c cs ih =>
    intro s F hV hstuck
    obtain ⟨sb, sw, sd, se⟩ := s
    rcases hstuck with ⟨hw, hlen, hbuf⟩ | ⟨t, p, F', hF, hw, hdt, hel, hlen, hbuf⟩
    · dsimp only at hw hlen hbuf
      subst hw
      simp only [List.flatten_cons] at hbuf
      obtain ⟨F₁, F₂, s', hsplit, hproc, hstk⟩ :=
        (run_both F).1 (sb ++ c) cs.flatten sd se hV
          (by rw [List.append_assoc]; exact hbuf)
      have hV₂ : ValidFrames F₂ := fun g hg => hV g
        (by rw [hsplit]; exact List.mem_append_right _ hg)
      have hrest := ih s' F₂ hV₂ hstk
      show (feedAll ⟨sb, true, sd, se⟩ (c :: cs)).2 = F
      simp only [feedAll, feed]
      try dsimp only
      rw [hproc]
      try dsimp only
      rw [hrest, ← hsplit]
    · dsimp only at hw hdt hel hlen hbuf
      subst hw
      simp only [List.flatten_cons] at hbuf
      have hplt : p.length < 2 ^ 32 := (hV (t, p) (by rw [hF]; simp)).2.1
      have hV' : ValidFrames F' := fun g hg => hV g (by rw [hF]; simp [hg])
      obtain ⟨F₁, F₂, s', hsplit, hproc, hstk⟩ :=
        (run_both F').2 t p (sb ++ c) cs.flatten hplt hV'
          (by rw [List.append_assoc]; exact hbuf)
      have hV₂ : ValidFrames F₂ := fun g hg => hV g
        (by rw [hF, hsplit]; exact List.mem_append_right _ hg)
      have hrest := ih s' F₂ hV₂ hstk
      show (feedAll ⟨sb, false, sd, se⟩ (c :: cs)).2 = F
      simp only [feedAll, feed]
      try dsimp only
      rw [hdt, hel, hproc]
      try dsimp only
      rw [hrest, hF, hsplit]

/-- Feeding any chunk split of the encoding of a valid frame sequence to a
fresh decoder yields exactly those frames. -/
theorem feedAll_valid_stream (F : List Frame) (chunks : List (List Nat))
    (hV : ValidFrames F) (hchunks : chunks.flatten = encodeFrames F) :
    (feedAll initState chunks).2 = F := by
  apply feed_run chunks initState F hV
  left
  exact ⟨rfl, by simp [initState], by simp [initState, hchunks]⟩

/-- Single-chunk version of `feedAll_valid_stream`. -/
theorem feed_valid_stream (F : List Frame) (hV : ValidFrames F) :
    (feed initState (encodeFrames F)).2 = F := by
  have h := feedAll_valid_stream F [encodeFrames F] hV (by simp)
  simpa [feedAll] using h

/-- C1: for every valid byte stream (the encoding of a sequence of valid
frames) and every way of splitting it into chunks, feeding the chunks one
at a time yields exactly the same frame sequence, in the same order, as
feeding the whole stream in a single chunk. -/
theorem c1_fragmentation_invariance (F : List Frame)
    (chunks : List (List Nat)) (hV : ValidFrames F)
    (hchunks : chunks.flatten = encodeFrames F) :
    (feedAll initState chunks).2 = (feedAll initState [encodeFrames F]).2 := by
  rw [feedAll_valid_stream F chunks hV hchunks,
    feedAll_valid_stream F [encodeFrames F] hV (by simp)]

theorem c1_fragmentation_invariance_witness :
    (ValidFrames c1F ∧ c1Chunks.flatten = encodeFrames c1F) ∧
      (feedAll initState c1Chunks).2 =
        (feedAll initState [encodeFrames c1F]).2 :=
  ⟨⟨by decide, by decide⟩,
    c1_fragmentation_invariance c1F c1Chunks (by decide) (by decide)⟩

/-- C4: in the awaiting-header state with at least 9 buffered bytes and a
sync-word mismatch at offset 0, the decoder searches from offset 1 for
the little-endian sync pattern; if the first occurrence is at offset
`j + 1` it discards exactly the first `j + 1` bytes, placing the sync
word at offset 0, and if the pattern occurs nowhere it discards exactly
one byte. -/
theorem c4_resync_policy (s : DecState) (hw : s.waiting = true)
    (h9 : 9 ≤ s.buffer.length) (hs : le32 (s.buffer.take 4) ≠ syncWord) :
    (∀ j, findPat (s.buffer.drop 1) syncBytes = some j →
      process s = process { s with buffer := s.buffer.drop (j + 1) } ∧
      ((s.buffer.drop (j + 1)).take 4 = syncBytes ∧
        ∀ i, 1 ≤ i → i < j + 1 → ¬ (s.buffer.drop i).take 4 = syncBytes)) ∧
    (findPat (s.buffer.drop 1) syncBytes = none →
      process s = ({ s with buffer := s.buffer.drop 1 }, []) ∧
      ∀ i, 1 ≤ i → ¬ (s.buffer.drop i).take 4 = syncBytes) := by
  constructor
  · intro j hf
    refine ⟨process_resync_found s j hw h9 hs hf, ?_, ?_⟩
    · have h1 := (findPat_some_spec _ _ _ hf).1
      rw [List.drop_drop] at h1
      simpa [syncBytes, Nat.add_comm] using h1
    · intro i h1i hij
      obtain ⟨i', rfl⟩ : ∃ k, i = k + 1 := ⟨i - 1, by omega⟩
      have h2 := (findPat_some_spec _ _ _ hf).2 i' (by omega)
      rw [List.drop_drop] at h2
      simpa [syncBytes, Nat.add_comm] using h2
  · intro hf
    refine ⟨process_resync_none s hw h9 hs hf, ?_⟩
    intro i h1i
    obtain ⟨i', rfl⟩ : ∃ k, i = k + 1 := ⟨i - 1, by omega⟩
    have h2 := findPat_none_spec _ _ (by simp [syncBytes]) hf i'
    rw [List.drop_drop] at h2
    simpa [syncBytes, Nat.add_comm] using h2

theorem c4_resync_policy_witness :
    ((9 ≤ c4buf.length ∧ le32 (c4buf.take 4) ≠ syncWord) ∧
      findPat (c4buf.drop 1) syncBytes = some 1) ∧
      (process ⟨c4buf, true, 0, 0⟩ = process ⟨c4buf.drop 2, true, 0, 0⟩ ∧
        ((c4buf.drop 2).take 4 = syncBytes ∧
          ∀ i, 1 ≤ i → i < 2 → ¬ (c4buf.drop i).take 4 = syncBytes)) :=
  ⟨⟨⟨by decide, by decide⟩, by decide⟩,
    (c4_resync_policy ⟨c4buf, true, 0, 0⟩ rfl (by decide) (by decide)).1 1
      (by decide)⟩

/-- C5 counterexample: the decoder has no configurable header layout; fed
a 13-byte-header frame (type 1, width 240, height 200, 10 payload bytes,
as `image_server.py` sends), it parses the 9-byte layout, reads the
payload length from the width/height bytes (240 + 65536 * 200 =
13107440), emits no frame, and waits for 13107440 payload bytes. -/
theorem c5_counterexample :
    (feed initState c5stream).2 = [] ∧
      (feed initState c5stream).1.waiting = false ∧
      (feed initState c5stream).1.expectedLen = 13107440 := by decide

/-- C5 amended: the stream decoder implements only the 9-byte header
layout; parsing a sender-style 13-byte-header frame misreads the
`width`/`height` fields as the payload length, so (whenever the real
payload is too short to satisfy that bogus length) no frame is emitted
and the decoder stalls awaiting `w + 2^16 * h` payload bytes. -/
theorem c5_amended (t w hgt : Nat) (p : List Nat)
    (hw : w < 2 ^ 16) (hh : hgt < 2 ^ 16)
    (hshort : 4 + p.length < w + 2 ^ 16 * hgt) :
    (feed initState (encodeFrame13 t w hgt p)).2 = [] ∧
      (feed initState (encodeFrame13 t w hgt p)).1.waiting = false ∧
      (feed initState (encodeFrame13 t w hgt p)).1.dataType = t ∧
      (feed initState (encodeFrame13 t w hgt p)).1.expectedLen =
        w + 2 ^ 16 * hgt := by
  have htake4 : (encodeFrame13 t w hgt p).take 4 = syncBytes := by
    simp [encodeFrame13, syncBytes]
  have hget4 : (encodeFrame13 t w hgt p).getD 4 0 = t := by
    simp [encodeFrame13, syncBytes]
  have hdrop5 : ((encodeFrame13 t w hgt p).drop 5).take 4 =
      [w % 256, w / 256, hgt % 256, hgt / 256] := by
    simp [encodeFrame13, syncBytes]
  have hlen9 : 9 ≤ (encodeFrame13 t w hgt p).length := by
    simp [encodeFrame13, syncBytes, encodeLen]
  have hdrop9 : (encodeFrame13 t w hgt p).drop 9 = encodeLen p.length ++ p := by
    simp [encodeFrame13, syncBytes]
  have hL : le32 (((encodeFrame13 t w hgt p).drop 5).take 4) =
      w + 2 ^ 16 * hgt := by
    rw [hdrop5]
    simp [le32, List.getD]
    omega
  have hp1 := process_header_parse ⟨encodeFrame13 t w hgt p, true, 0, 0⟩ rfl
    (by simpa using hlen9) (by dsimp only; rw [htake4]; exact le32_syncBytes)
  dsimp only at hp1
  rw [hget4, hL, hdrop9] at hp1
  have hp2 := process_stuck_payload
    ⟨encodeLen p.length ++ p, false, t, w + 2 ^ 16 * hgt⟩ rfl
    (by simp [encodeLen]; omega)
  have hfeed : feed initState (encodeFrame13 t w hgt p) =
      process ⟨encodeFrame13 t w hgt p, true, 0, 0⟩ := by
    simp [feed, initState]
  rw [hfeed, hp1, hp2]
  exact ⟨rfl, rfl, rfl, rfl⟩

theorem c5_amended_witness :
    (240 < 2 ^ 16 ∧ 200 < 2 ^ 16 ∧
      4 + (List.replicate 10 171).length < 240 + 2 ^ 16 * 200) ∧
      ((feed initState (encodeFrame13 1 240 200 (List.replicate 10 171))).2 =
          [] ∧
        (feed initState
          (encodeFrame13 1 240 200 (List.replicate 10 171))).1.waiting =
            false ∧
        (feed initState
          (encodeFrame13 1 240 200 (List.replicate 10 171))).1.dataType = 1 ∧
        (feed initState
          (encodeFrame13 1 240 200 (List.replicate 10 171))).1.expectedLen =
            240 + 2 ^ 16 * 200) :=
  ⟨⟨by decide, by decide, by decide⟩,
    c5_amended 1 240 200 (List.replicate 10 171) (by decide) (by decide)
      (by decide)⟩

/-- C8: in the awaiting-payload state the next `payload_length` bytes are
extracted verbatim: a well-framed frame whose payload contains the
4-byte sync pattern (witnessed by `findPat p syncBytes = some j`) is
still decoded as exactly one frame with that payload — no spurious frame
boundary is produced. -/
theorem c8_no_spurious_boundary (t : Nat) (p : List Nat) (j : Nat)
    (ht : t < 256) (hlen : p.length < 2 ^ 32) (hbytes : ∀ b ∈ p, b < 256)
    (hsync_inside : findPat p syncBytes = some j) :
    (feed initState (encodeFrames [(t, p)])).2 = [(t, p)] := by
  apply feed_valid_stream
  intro f hf
  simp only [List.mem_singleton] at hf
  subst hf
  exact ⟨ht, hlen, hbytes⟩

theorem c8_no_spurious_boundary_witness :
    (3 < 256 ∧ syncBytes.length < 2 ^ 32 ∧ (∀ b ∈ syncBytes, b < 256) ∧
      findPat syncBytes syncBytes = some 0) ∧
      (feed initState (encodeFrames [(3, syncBytes)])).2 = [(3, syncBytes)] :=
  ⟨⟨by decide, by decide, by decide, by decide⟩,
    c8_no_spurious_boundary 3 syncBytes 0 (by decide) (by decide) (by decide)
      (by decide)⟩

/-- C9: a well-framed frame whose type byte is not 0x01/0x02/0x03 is still
parsed by the framing loop (here followed by a second frame, which is
parsed too, i.e. decoding continues), and the payload decoder fails it
as an unsupported type (`None`). -/
theorem c9_unknown_type (jp : List Nat → Option Image)
    (lz : List Nat → Option (List Nat)) (t t2 w h : Nat) (p p2 : List Nat)
    (ht : t < 256) (hunk : ¬ (t = 1 ∨ t = 2 ∨ t = 3))
    (hlen : p.length < 2 ^ 32) (hbytes : ∀ b ∈ p, b < 256)
    (ht2 : t2 < 256) (hlen2 : p2.length < 2 ^ 32)
    (hbytes2 : ∀ b ∈ p2, b < 256) :
    (feed initState (encodeFrames [(t, p), (t2, p2)])).2 =
        [(t, p), (t2, p2)] ∧
      decode_frame jp lz t p w h = none := by
  push_neg at hunk
  constructor
  · apply feed_valid_stream
    intro f hf
    simp only [List.mem_cons, List.mem_singleton] at hf
    rcases hf with hf | hf | hf
    · subst hf; exact ⟨ht, hlen, hbytes⟩
    · subst hf; exact ⟨ht2, hlen2, hbytes2⟩
    · cases hf
  · simp [decode_frame, hunk.1, hunk.2.1, hunk.2.2]

theorem c9_unknown_type_witness :
    (5 < 256 ∧ ¬ ((5 : Nat) = 1 ∨ (5 : Nat) = 2 ∨ (5 : Nat) = 3)) ∧
      ((feed initState (encodeFrames [(5, [9]), (1, [7])])).2 =
          [(5, [9]), (1, [7])] ∧
        decode_frame noJpeg noLz4 5 [9] 2 2 = none) :=
  ⟨⟨by decide, by decide⟩,
    c9_unknown_type noJpeg noLz4 5 1 2 2 [9] [7] (by decide) (by decide)
      (by decide) (by decide) (by decide) (by decide) (by decide)⟩

/-- C7 counterexample: the payload decoder does not fail an empty payload
for every supported frame type — for raw RGB565 (0x03) it succeeds,
returning an image (the all-black zero-filled frame). -/
theorem c7_counterexample :
    (decode_frame noJpeg noLz4 3 [] 2 2).isSome = true := by decide

/-- C7 amended: a header declaring `payload_length = 0` is valid and
yields a frame with an empty payload; the payload decoder then fails the
empty payload for the JPEG (0x01) and LZ4 (0x02) types (whose external
decoders fail on empty input), but for raw RGB565 (0x03) it succeeds,
producing the all-black zero-filled `h × w` image. -/
theorem c7_zero_length_payload (t w h : Nat)
    (jp : List Nat → Option Image) (lz : List Nat → Option (List Nat))
    (ht : t < 256) (hw : 1 ≤ w) (hh : 1 ≤ h)
    (hjp : jp [] = none) (hlz : lz [] = none) :
    (feed initState (encodeFrames [(t, [])])).2 = [(t, [])] ∧
      decode_frame jp lz 1 [] w h = none ∧
      decode_frame jp lz 2 [] w h = none ∧
      decode_frame jp lz 3 [] w h =
        some (List.replicate h (List.replicate w (0, 0, 0))) := by
  have hw0 : w ≠ 0 := by omega
  refine ⟨?_, ?_, ?_, ?_⟩
  · apply feed_valid_stream
    intro f hf
    simp only [List.mem_singleton] at hf
    subst hf
    exact ⟨ht, by simp, by simp⟩
  · simp [decode_frame, hjp]
  · simp [decode_frame, hlz]
  · have h0h : 0 < h := by omega
    have himg : rgb565ToImage [] w h =
        some (List.replicate h (List.replicate w (0, 0, 0))) := by
      rw [rgb565ToImage]
      simp [hw0, h0h, rgbToBgr, List.map_replicate]
    simp [decode_frame, himg]

theorem c7_zero_length_payload_witness :
    (7 < 256 ∧ 1 ≤ 2 ∧ 1 ≤ 2 ∧ noJpeg [] = none ∧ noLz4 [] = none) ∧
      ((feed initState (encodeFrames [(7, [])])).2 = [(7, [])] ∧
        decode_frame noJpeg noLz4 1 [] 2 2 = none ∧
        decode_frame noJpeg noLz4 2 [] 2 2 = none ∧
        decode_frame noJpeg noLz4 3 [] 2 2 =
          some (List.replicate 2 (List.replicate 2 (0, 0, 0)))) :=
  ⟨⟨by decide, by decide, by decide, rfl, rfl⟩,
    c7_zero_length_payload 7 2 2 noJpeg noLz4 (by decide) (by decide)
      (by decide) rfl rfl⟩

/-! ## Indexing helpers for the pixel-array lemmas -/

theorem getD_range_map {α : Type} (n i : Nat) (f : Nat → α) (d : α)
    (h : i < n) : ((List.range n).map f).getD i d = f i := by
  have hl : i < ((List.range n).map f).length := by simpa using h
  rw [List.getD_eq_getElem _ _ hl]
  simp

theorem getD_replicate_of_lt {α : Type} (n i : Nat) (a d : α) (h : i < n) :
    (List.replicate n a).getD i d = a := by
  have hl : i < (List.replicate n a).length := by simpa using h
  rw [List.getD_eq_getElem _ _ hl]
  simp

theorem flatten_uniform_length {α : Type} (w : Nat) :
    ∀ ls : List (List α), (∀ r ∈ ls, r.length = w) →
      ls.flatten.length = ls.length * w := by
  intro ls
  induction ls with
  | nil => intro _; simp
  | cons r tl ih =>
    intro hr
    simp only [List.flatten_cons, List.length_append, List.length_cons]
    rw [hr r (by simp), ih (fun x hx => hr x (by simp [hx]))]
    ring

theorem flatten_uniform_extract {α : Type} (w : Nat) :
    ∀ (ls : List (List α)) (i : Nat), (∀ r ∈ ls, r.length = w) →
      i < ls.length → ((ls.flatten).drop (i * w)).take w = ls.getD i [] := by
  intro ls
  induction ls with
  | nil =>
    intro i _ h
    simp at h
  | cons r tl ih =>
    intro i hr hi
    have hrw : r.length = w := hr r (by simp)
    cases i with
    | zero =>
      simp only [List.flatten_cons, Nat.zero_mul, List.drop_zero,
        List.getD_cons_zero]
      rw [← hrw, List.take_left]
    | succ i' =>
      simp only [List.flatten_cons, List.getD_cons_succ]
      rw [show (i' + 1) * w = r.length + i' * w by rw [hrw]; ring]
      rw [List.drop_append]
      exact ih i' (fun x hx => hr x (by simp [hx])) (by simpa using hi)

theorem toU16_pair_flatMap : ∀ vs : List Nat, (∀ v ∈ vs, v < 65536) →
    toU16 (vs.flatMap (fun v => [v % 256, v / 256])) = vs := by
  intro vs
  induction vs with
  | nil => intro _; rfl
  | cons v tl ih =>
    intro hv
    have h1 : v % 256 + 256 * (v / 256) = v := by omega
    simp only [List.flatMap_cons, List.cons_append, List.nil_append]
    rw [show toU16 (v % 256 :: v / 256 ::
        tl.flatMap (fun v => [v % 256, v / 256])) =
      (v % 256 + 256 * (v / 256)) ::
        toU16 (tl.flatMap (fun v => [v % 256, v / 256])) from rfl]
    rw [ih (fun x hx => hv x (by simp [hx])), h1]

/-- Closed form of `rgb565ToImage` on row-aligned data: a row of decoded
pixels per full source row, zero-padded up to the declared height. -/
theorem rgb565ToImage_success (d : List Nat) (w h : Nat) (hw : 1 ≤ w)
    (hdvd : 2 * w ∣ d.length) :
    rgb565ToImage d w h = some
      (((List.range (d.length / 2 / w)).map (fun i => decodedRow d w i)) ++
        List.replicate (h - d.length / 2 / w)
          (List.replicate w (0, 0, 0))) := by
  obtain ⟨k, hk⟩ := hdvd
  have hw0 : w ≠ 0 := by omega
  have hhalf : d.length / 2 = w * k := by
    rw [hk, show 2 * w * k = 2 * (w * k) by ring]
    exact Nat.mul_div_cancel_left _ (by omega)
  have hactual : d.length / 2 / w = k := by
    rw [hhalf]
    exact Nat.mul_div_cancel_left _ (by omega)
  have hpar : d.length % 2 = 0 := by
    rw [hk, show 2 * w * k = 2 * (w * k) by ring]
    exact Nat.mul_mod_right 2 _
  have hreshape : d.length / 2 / w * w = d.length / 2 := by
    rw [hactual, hhalf]
    ring
  by_cases hcase : d.length / 2 / w < h
  · simp [rgb565ToImage, hw0, hpar, hreshape, hcase, decodedRow,
      List.map_map, List.map_replicate, rgbToBgr, Function.comp]
    intro a ha
    rfl
  · simp [rgb565ToImage, hw0, hpar, hreshape, hcase,
      show h - d.length / 2 / w = 0 by omega, decodedRow,
      List.map_map, List.map_replicate, rgbToBgr, Function.comp]
    intro a ha
    rfl

/-- `rgb565ToImage` fails exactly when the byte count is not a multiple of
the row size in bytes (`2 * width`): odd byte counts fail
`np.frombuffer`, and non-row-multiples fail `reshape`. -/
theorem rgb565ToImage_none_iff (d : List Nat) (w h : Nat) (hw : 1 ≤ w) :
    rgb565ToImage d w h = none ↔ ¬ (2 * w ∣ d.length) := by
  constructor
  · intro hnone hdvd
    rw [rgb565ToImage_success d w h hw hdvd] at hnone
    cases hnone
  · intro hnd
    have hw0 : w ≠ 0 := by omega
    by_cases hpar : d.length % 2 = 0
    · have hre : d.length / 2 / w * w ≠ d.length / 2 := by
        intro heq
        apply hnd
        refine ⟨d.length / 2 / w, ?_⟩
        have h2 : 2 * (d.length / 2) = d.length := by omega
        calc d.length = 2 * (d.length / 2) := h2.symm
          _ = 2 * (d.length / 2 / w * w) := by rw [heq]
          _ = 2 * w * (d.length / 2 / w) := by ring
      simp [rgb565ToImage, hw0, hpar, hre]
    · simp [rgb565ToImage, hw0, hpar]

theorem range_map_getD {α β : Type} (g : α → β) (d : α) :
    ∀ ls : List α,
      (List.range ls.length).map (fun i => g (ls.getD i d)) = ls.map g := by
  intro ls
  induction ls with
  | nil => simp
  | cons a tl ih =>
    rw [List.length_cons, List.range_succ_eq_map]
    simp only [List.map_cons, List.getD_cons_zero, List.map_map]
    show _ :: _ = _ :: _
    refine congrArg _ ?_
    rw [← ih]
    apply List.map_congr_left
    intro i hi
    simp [Function.comp, List.getD_cons_succ]

/-- C2 counterexample: a 2-byte raw payload with width 2 yields
`actual_rows = 0 < height = 2`, yet decode fails (`None`): the single
u16 pixel cannot be reshaped into rows of 2 pixels (`np.reshape`
raises, caught as a failure) — decode is not total on under-filled data. -/
theorem c2_counterexample :
    [0, 0].length / 2 / 2 < 2 ∧
      decode_frame noJpeg noLz4 3 [0, 0] 2 2 = none := by decide

/-- C2 amended: for payloads whose byte count is a multiple of `2 * width`
(the reshape constraint), with `actual_rows = count / 2 / width <
height`, decode succeeds: the first `actual_rows` rows come from the
source data and the remaining rows are zero-filled; the LZ4 branch
behaves identically on the decompressed bytes.  Payloads violating the
multiple-of-row-size constraint fail instead (`c2_counterexample`). -/
theorem c2_underfill_policy (jp : List Nat → Option Image)
    (lz : List Nat → Option (List Nat)) (d : List Nat) (w h : Nat)
    (hw : 1 ≤ w) (hdvd : 2 * w ∣ d.length) (hlt : d.length / 2 / w < h) :
    ∃ img, decode_frame jp lz 3 d w h = some img ∧
      img.length = h ∧
      (∀ i, i < d.length / 2 / w → img.getD i [] = decodedRow d w i) ∧
      (∀ i, d.length / 2 / w ≤ i → i < h →
        img.getD i [] = List.replicate w (0, 0, 0)) ∧
      ∀ e, lz e = some d → decode_frame jp lz 2 e w h = some img := by
  have himg := rgb565ToImage_success d w h hw hdvd
  refine ⟨(List.range (d.length / 2 / w)).map (fun i => decodedRow d w i) ++
    List.replicate (h - d.length / 2 / w) (List.replicate w (0, 0, 0)),
    ?_, ?_, ?_, ?_, ?_⟩
  · rw [show decode_frame jp lz 3 d w h = rgb565ToImage d w h from by
      simp [decode_frame]]
    exact himg
  · simp
    omega
  · intro i hi
    rw [List.getD_append _ _ _ _ (by simpa using hi)]
    exact getD_range_map _ _ _ _ hi
  · intro i h1 h2
    rw [List.getD_append_right _ _ _ _ (by simpa using h1)]
    exact getD_replicate_of_lt _ _ _ _ (by simp; omega)
  · intro e he
    rw [show decode_frame jp lz 2 e w h = rgb565ToImage d w h from by
      simp [decode_frame, he]]
    exact himg

theorem c2_underfill_policy_witness :
    (1 ≤ 2 ∧ 2 * 2 ∣ c2data.length ∧ c2data.length / 2 / 2 < 3) ∧
      ∃ img, decode_frame noJpeg noLz4 3 c2data 2 3 = some img ∧
        img.length = 3 ∧
        (∀ i, i < c2data.length / 2 / 2 → img.getD i [] = decodedRow c2data 2 i) ∧
        (∀ i, c2data.length / 2 / 2 ≤ i → i < 3 →
          img.getD i [] = List.replicate 2 (0, 0, 0)) ∧
        ∀ e, noLz4 e = some c2data →
          decode_frame noJpeg noLz4 2 e 2 3 = some img :=
  ⟨⟨by decide, by decide, by decide⟩,
    c2_underfill_policy noJpeg noLz4 c2data 2 3 (by decide) (by decide)
      (by decide)⟩

/-- C3 counterexample: a raw payload of 2 full rows decoded with declared
width 1 and height 1 produces an image with 2 rows — taller than the
declared height, so `actual_rows_filled <= height` fails. -/
theorem c3_counterexample :
    (decode_frame noJpeg noLz4 3 [0, 0, 0, 0] 1 1).isSome = true ∧
      ((decode_frame noJpeg noLz4 3 [0, 0, 0, 0] 1 1).getD []).length = 2 := by
  decide

/-- C3 amended: the decoder zero-pads under-filled payloads up to the
declared height but does not crop over-filled ones: a successfully
decoded raw (or LZ4) RGB565 image has exactly
`max actual_rows height` rows, so the invariant `rows <= height` holds
only when `actual_rows <= height`. -/
theorem c3_row_count (jp : List Nat → Option Image)
    (lz : List Nat → Option (List Nat)) (d e : List Nat) (w h : Nat)
    (img : Image) (hw : 1 ≤ w) :
    (decode_frame jp lz 3 d w h = some img →
      img.length = max (d.length / 2 / w) h) ∧
    (lz e = some d → decode_frame jp lz 2 e w h = some img →
      img.length = max (d.length / 2 / w) h) := by
  have key : rgb565ToImage d w h = some img →
      img.length = max (d.length / 2 / w) h := by
    intro h'
    by_cases hdvd : 2 * w ∣ d.length
    · rw [rgb565ToImage_success d w h hw hdvd] at h'
      have himg := Option.some.inj h'
      rw [← himg]
      simp
      omega
    · rw [(rgb565ToImage_none_iff d w h hw).2 hdvd] at h'
      cases h'
  constructor
  · intro h3
    apply key
    rw [← h3]
    simp [decode_frame]
  · intro he h2
    apply key
    rw [← h2]
    simp [decode_frame, he]

theorem c3_row_count_witness :
    (1 ≤ 1 ∧ decode_frame noJpeg noLz4 3 [0, 0, 0, 0] 1 1 =
      some [[(0, 0, 0)], [(0, 0, 0)]]) ∧
      ([[(0, 0, 0)], [(0, 0, 0)]] : Image).length =
        max ([0, 0, 0, 0].length / 2 / 1) 1 :=
  ⟨⟨by decide, by decide⟩,
    (c3_row_count noJpeg noLz4 [0, 0, 0, 0] [] 1 1
      [[(0, 0, 0)], [(0, 0, 0)]] (by decide)).1 (by decide)⟩

/-- C10: the payload decoder is total at its interface: its embedding maps
every input to either a decoded image or the failure value `none` (every
Python exception site is a `none` path), and for the raw-RGB565 type the
failure cases are exactly the byte counts that are not a multiple of the
row size `2 * width`. -/
theorem c10_totality (jp : List Nat → Option Image)
    (lz : List Nat → Option (List Nat)) (t : Nat) (d : List Nat)
    (w h : Nat) (hw : 1 ≤ w) (hh : 1 ≤ h) :
    ((∃ img, decode_frame jp lz t d w h = some img) ∨
      decode_frame jp lz t d w h = none) ∧
    (decode_frame jp lz 3 d w h = none ↔ ¬ (2 * w ∣ d.length)) := by
  constructor
  · cases hx : decode_frame jp lz t d w h with
    | none => right; rfl
    | some img => left; exact ⟨img, rfl⟩
  · rw [show decode_frame jp lz 3 d w h = rgb565ToImage d w h from by
      simp [decode_frame]]
    exact rgb565ToImage_none_iff d w h hw

theorem c10_totality_witness :
    (1 ≤ 2 ∧ 1 ≤ 2) ∧
      (((∃ img, decode_frame noJpeg noLz4 3 [1] 2 2 = some img) ∨
        decode_frame noJpeg noLz4 3 [1] 2 2 = none) ∧
      (decode_frame noJpeg noLz4 3 [1] 2 2 = none ↔ ¬ (2 * 2 ∣ [1].length))) :=
  ⟨⟨by decide, by decide⟩,
    c10_totality noJpeg noLz4 3 [1] 2 2 (by decide) (by decide)⟩

theorem rgb565pack_lt (p : Nat × Nat × Nat) : rgb565pack p < 65536 := by
  unfold rgb565pack
  omega

theorem swap16_lt (v : Nat) (h : v < 65536) : swap16 v < 65536 := by
  unfold swap16
  omega

theorem flatMap_pair_length : ∀ vs : List Nat,
    (vs.flatMap (fun v => [v % 256, v / 256])).length = 2 * vs.length := by
  intro vs
  induction vs with
  | nil => rfl
  | cons v tl ih =>
    simp only [List.flatMap_cons, List.length_append, ih, List.length_cons]
    simp
    omega

theorem encode_frame_raw_toU16 (img : Image) :
    toU16 (encode_frame_raw img) =
      img.flatten.map (fun p => swap16 (rgb565pack p)) := by
  rw [encode_frame_raw]
  rw [show (img.map (fun row =>
        row.map (fun p => swap16 (rgb565pack p)))).flatten =
      img.flatten.map (fun p => swap16 (rgb565pack p)) from
    (List.map_flatten _ _).symm]
  refine toU16_pair_flatMap _ ?_
  intro v hv
  simp only [List.mem_map] at hv
  obtain ⟨p, _, rfl⟩ := hv
  exact swap16_lt _ (rgb565pack_lt p)

theorem encode_frame_raw_length (img : Image) (w : Nat)
    (hrows : ∀ row ∈ img, row.length = w) :
    (encode_frame_raw img).length = 2 * (img.length * w) := by
  rw [encode_frame_raw, flatMap_pair_length,
    show (img.map (fun row =>
        row.map (fun p => swap16 (rgb565pack p)))).flatten =
      img.flatten.map (fun p => swap16 (rgb565pack p)) from
    (List.map_flatten _ _).symm,
    List.length_map, flatten_uniform_length w img hrows]

/-- C6 counterexample: pure red (BGR `(0, 0, 255)`) encoded by the
sender's raw RGB565 encoder and decoded by the receiver comes back as
BGR `(192, 28, 0)`, not the quantized `(0, 0, 248)`: the sender
byteswaps each RGB565 word (for the LVGL firmware) and the receiver
does not swap back. -/
theorem c6_counterexample :
    decode_frame noJpeg noLz4 3 (encode_frame_raw [[(0, 0, 255)]]) 1 1 =
        some [[(192, 28, 0)]] ∧
      ¬ ((192, 28, 0) : Nat × Nat × Nat) =
        (0 / 8 * 8, 0 / 4 * 4, 255 / 8 * 8) := by decide

/-- C6 amended: the raw round-trip reproduces, per pixel, the channels
extracted from the byte-swapped RGB565 word: decoding the sender's
bytes yields exactly `rgbToBgr (pix565toRGB (swap16 (rgb565pack p)))`
for each source pixel `p` — quantized-channel reproduction holds only
after composing with the 16-bit byte swap the sender applies. -/
theorem c6_roundtrip_with_byteswap (jp : List Nat → Option Image)
    (lz : List Nat → Option (List Nat)) (img : Image) (w h : Nat)
    (hw : 1 ≤ w) (hlen : img.length = h)
    (hrows : ∀ row ∈ img, row.length = w) :
    decode_frame jp lz 3 (encode_frame_raw img) w h =
      some (img.map (fun row => row.map
        (fun p => rgbToBgr (pix565toRGB (swap16 (rgb565pack p)))))) := by
  have hw0 : w ≠ 0 := by omega
  have hdlen : (encode_frame_raw img).length = 2 * (h * w) := by
    rw [encode_frame_raw_length img w hrows, hlen]
  have hdvd : 2 * w ∣ (encode_frame_raw img).length :=
    ⟨h, by rw [hdlen]; ring⟩
  have hactual : (encode_frame_raw img).length / 2 / w = h := by
    rw [hdlen, Nat.mul_div_cancel_left _ (by omega : 0 < 2),
      Nat.mul_comm h w, Nat.mul_div_cancel_left _ (by omega : 0 < w)]
  rw [show decode_frame jp lz 3 (encode_frame_raw img) w h =
    rgb565ToImage (encode_frame_raw img) w h from by simp [decode_frame]]
  rw [rgb565ToImage_success _ w h hw hdvd, hactual, Nat.sub_self]
  simp only [List.replicate_zero, List.append_nil]
  refine congrArg _ ?_
  have hrowseq : ∀ i, i < h → decodedRow (encode_frame_raw img) w i =
      (img.getD i []).map
        (fun p => rgbToBgr (pix565toRGB (swap16 (rgb565pack p)))) := by
    intro i hi
    rw [decodedRow, encode_frame_raw_toU16,
      ← List.map_drop, ← List.map_take,
      flatten_uniform_extract w img i hrows (by rw [hlen]; exact hi),
      List.map_map]
    rfl
  rw [← hlen]
  rw [List.map_congr_left (fun i hi =>
    hrowseq i (by rw [← hlen]; exact List.mem_range.mp hi))]
  exact range_map_getD _ [] img

theorem c6_roundtrip_with_byteswap_witness :
    (1 ≤ 2 ∧ c6img.length = 1 ∧ (∀ row ∈ c6img, row.length = 2)) ∧
      decode_frame noJpeg noLz4 3 (encode_frame_raw c6img) 2 1 =
        some (c6img.map (fun row => row.map
          (fun p => rgbToBgr (pix565toRGB (swap16 (rgb565pack p)))))) :=
  ⟨⟨by decide, by decide, by decide⟩,
    c6_roundtrip_with_byteswap noJpeg noLz4 c6img 2 1 (by decide) (by decide)
      (by decide)⟩
